import Mathlib

/-!
Verification of the pyobo data-model core: the OBO text-escaping
utilities (`src/pyobo/struct/utils.py`) and the `Reference` / `TypeDef` /
`Term` contracts of the `pyobo.struct` package.  Python strings are
modelled as `List Char`.
-/

namespace PyObo

/-- Characters of the substitution table `OBO_ESCAPE_SLIM` in
`src/pyobo/struct/utils.py`: colon, comma, double quote, backslash, both
parentheses, both square brackets and both curly braces.  Each is mapped
to a backslash-prefixed form. -/
def escapeChars : List Char :=
  [':', ',', '\"', '\\', '(', ')', '[', ']', '\x7b', '\x7d']

/-- Per-character lookup `OBO_ESCAPE_SLIM.get(character, character)`:
table characters become backslash followed by the same character, every
other character stays itself. -/
def oboEscapeSlimChar (c : Char) : List Char :=
  if c ∈ escapeChars then ['\\', c] else [c]

/-- Per-character lookup in the merged table `OBO_ESCAPE`, which adds a
mapping of the space character to backslash-W on top of
`OBO_ESCAPE_SLIM`. -/
def oboEscapeChar (c : Char) : List Char :=
  if c = ' ' then ['\\', 'W'] else oboEscapeSlimChar c

/-- The function `obo_escape` of `src/pyobo/struct/utils.py`: joins the
per-character substitutions of the input, left to right. -/
def obo_escape (s : List Char) : List Char :=
  s.flatMap oboEscapeChar

/-- Models the Python call `rv.replace("\n", "\\n")` inside
`obo_escape_slim`.  The pattern is the single newline character, so
Python's left-to-right non-overlapping replacement coincides with a
per-character substitution. -/
def replaceNewline (s : List Char) : List Char :=
  s.flatMap fun c => if c = '\n' then ['\\', 'n'] else [c]

/-- The function `obo_escape_slim` of `src/pyobo/struct/utils.py`: joins
the per-character slim substitutions, then replaces every newline by the
two-character sequence backslash-n. -/
def obo_escape_slim (s : List Char) : List Char :=
  replaceNewline (s.flatMap oboEscapeSlimChar)

/-- Spec-side rendering of the full escape table, written from the
spec's words for comparison against `oboEscapeChar`: each of the nine
listed characters (ten code points, counting both members of each
bracket pair) becomes a backslash followed by that same character, the
space becomes backslash-W, and every other character is unchanged. -/
def specFullEscapeChar : Char → List Char
  | ':' => ['\\', ':']
  | ',' => ['\\', ',']
  | '\"' => ['\\', '\"']
  | '\\' => ['\\', '\\']
  | '(' => ['\\', '(']
  | ')' => ['\\', ')']
  | '[' => ['\\', '[']
  | ']' => ['\\', ']']
  | '\x7b' => ['\\', '\x7b']
  | '\x7d' => ['\\', '\x7d']
  | ' ' => ['\\', 'W']
  | c => [c]

/-- Spec-side rendering of the slim escape table, written from the
spec's words for comparison against `oboEscapeSlimChar`: the same table
as the full escape but without the space substitution. -/
def specSlimEscapeChar : Char → List Char
  | ':' => ['\\', ':']
  | ',' => ['\\', ',']
  | '\"' => ['\\', '\"']
  | '\\' => ['\\', '\\']
  | '(' => ['\\', '(']
  | ')' => ['\\', ')']
  | '[' => ['\\', '[']
  | ']' => ['\\', ']']
  | '\x7b' => ['\\', '\x7b']
  | '\x7d' => ['\\', '\x7d']
  | c => [c]

/-- Decoder for `obo_escape`: a backslash consumes the next character,
backslash-W decodes to a space, any other escaped character decodes to
itself; every unescaped character decodes to itself. -/
def oboUnescape : List Char → List Char
  | [] => []
  | c :: rest =>
    if c = '\\' then
      match rest with
      | [] => ['\\']
      | d :: rest2 => (if d = 'W' then ' ' else d) :: oboUnescape rest2
    else
      c :: oboUnescape rest

/-- Decoder for `obo_escape_slim`: a backslash consumes the next
character, backslash-n decodes to a newline, any other escaped character
decodes to itself; every unescaped character decodes to itself. -/
def oboUnescapeSlim : List Char → List Char
  | [] => []
  | c :: rest =>
    if c = '\\' then
      match rest with
      | [] => ['\\']
      | d :: rest2 => (if d = 'n' then '\n' else d) :: oboUnescapeSlim rest2
    else
      c :: oboUnescapeSlim rest

/-- Modelled from the spec: the class `pyobo.struct.reference.Reference`
is not under src/ (only its callers are).  Per spec section 4.1 it holds
a namespace string (the source's field `prefix`, renamed `ns` here
because that word is a Lean keyword), an identifier and an optional
display name. -/
structure Reference where
  ns : String
  identifier : String
  name : Option String := none
deriving DecidableEq

/-- Modelled from the spec: Reference equality compares only the
namespace and the identifier; the optional name is metadata and does not
participate. -/
def Reference.eq (a b : Reference) : Bool :=
  a.ns == b.ns && a.identifier == b.identifier

/-- Modelled from the spec: the hash of a Reference is based on the
(namespace, identifier) pair only; we model the hash as that pair. -/
def Reference.hashKey (a : Reference) : String × String :=
  (a.ns, a.identifier)

/-- Modelled from the spec: the class `pyobo.struct.struct.TypeDef` is
not under src/.  Per spec section 4.2 it wraps a Reference and carries
the `is_metadata_tag` flag distinguishing literal-annotating relations
from entity-to-entity relations. -/
structure TypeDef where
  reference : Reference
  is_metadata_tag : Bool := false

/-- Modelled from the spec: the error taxonomy of spec section 7.
InvalidTypeDef marks a directionality violation, InvalidReference an
empty prefix or identifier at construction. -/
inductive ModelError where
  | invalidTypeDef
  | invalidReference
deriving DecidableEq

/-- Modelled from the spec: the aggregate `pyobo.struct.struct.Term` is
not under src/.  Per spec section 3 it holds an identity Reference, an
ordered parents sequence, object-annotation edges with set semantics
keyed by the (TypeDef reference, target) pair, and literal-annotation
values as an insertion-ordered sequence of (TypeDef reference, value)
pairs.  Only the fields the claims touch are modelled. -/
structure Term where
  reference : Reference
  parents : List Reference := []
  objectEdges : List (Reference × Reference) := []
  literalValues : List (Reference × String) := []

/-- Modelled from the spec: `Term.append_parent` adds the reference to
`parents` if not already present, presence being checked by Reference
equality; idempotent. -/
def Term.append_parent (t : Term) (r : Reference) : Term :=
  if t.parents.any fun p => Reference.eq p r then t
  else { t with parents := t.parents ++ [r] }

/-- Modelled from the spec: `Term.annotate_object` fails with
InvalidTypeDef when the typedef is a metadata tag, and otherwise records
the (typedef, target) edge with set semantics: a pair already present is
not recorded again. -/
def Term.annotate_object (t : Term) (td : TypeDef) (r : Reference) :
    Except ModelError Term :=
  if td.is_metadata_tag then .error .invalidTypeDef
  else if t.objectEdges.any fun e =>
      Reference.eq e.1 td.reference && Reference.eq e.2 r then .ok t
  else .ok { t with objectEdges := t.objectEdges ++ [(td.reference, r)] }

/-- Modelled from the spec: `Term.annotate_literal` fails with
InvalidTypeDef when the typedef is not a metadata tag, and otherwise
appends the value to the literal-annotation sequence, accepting
duplicates and preserving insertion order. -/
def Term.annotate_literal (t : Term) (td : TypeDef) (v : String) :
    Except ModelError Term :=
  if td.is_metadata_tag then
    .ok { t with literalValues := t.literalValues ++ [(td.reference, v)] }
  else .error .invalidTypeDef

/-- Helper: the source's per-character full-escape lookup agrees with
the spec's table, character by character. -/
theorem oboEscapeChar_eq_spec (c : Char) :
    oboEscapeChar c = specFullEscapeChar c := by
  unfold oboEscapeChar oboEscapeSlimChar escapeChars
  split_ifs with h1 h2
  · subst h1; rfl
  · fin_cases h2 <;> rfl
  · unfold specFullEscapeChar
    split
    all_goals simp_all

/-- Helper: the source's per-character slim-escape lookup agrees with
the spec's table, character by character. -/
theorem oboEscapeSlimChar_eq_spec (c : Char) :
    oboEscapeSlimChar c = specSlimEscapeChar c := by
  unfold oboEscapeSlimChar escapeChars
  split_ifs with h2
  · fin_cases h2 <;> rfl
  · unfold specSlimEscapeChar
    split
    all_goals simp_all

/-- Helper: `obo_escape_slim` consumes its input one character at a
time; each character contributes the newline-replaced image of its slim
substitution. -/
theorem obo_escape_slim_cons (c : Char) (s : List Char) :
    obo_escape_slim (c :: s) =
      replaceNewline (oboEscapeSlimChar c) ++ obo_escape_slim s := by
  simp [obo_escape_slim, replaceNewline]

/-- Helper: decoding after full escaping recovers the input. -/
theorem oboUnescape_obo_escape (s : List Char) :
    oboUnescape (obo_escape s) = s := by
  induction s with
  | nil => rfl
  | cons c s ih =>
    have hstep : obo_escape (c :: s) = oboEscapeChar c ++ obo_escape s := by
      simp [obo_escape]
    rw [hstep]
    unfold oboEscapeChar oboEscapeSlimChar
    split_ifs with h1 h2
    · subst h1
      simpa [oboUnescape] using ih
    · have hc : c ≠ 'W' := by
        intro h; subst h; revert h2; unfold escapeChars; decide
      simp [oboUnescape, hc, ih]
    · have hc : c ≠ '\\' := by
        intro h; subst h; exact h2 (by unfold escapeChars; decide)
      rw [oboUnescape.eq_def]
      simp [hc, ih]

/-- Helper: decoding after slim escaping recovers the input. -/
theorem oboUnescapeSlim_obo_escape_slim (s : List Char) :
    oboUnescapeSlim (obo_escape_slim s) = s := by
  induction s with
  | nil => rfl
  | cons c s ih =>
    rw [obo_escape_slim_cons]
    unfold oboEscapeSlimChar
    split_ifs with h2
    · have hbs : c ≠ '\n' := by
        intro h; subst h; revert h2; unfold escapeChars; decide
      have hn : c ≠ 'n' := by
        intro h; subst h; revert h2; unfold escapeChars; decide
      simp [replaceNewline, hbs, oboUnescapeSlim, hn, ih]
    · by_cases hnl : c = '\n'
      · subst hnl
        simpa [replaceNewline, oboUnescapeSlim] using ih
      · have hc : c ≠ '\\' := by
          intro h; subst h; exact h2 (by unfold escapeChars; decide)
        rw [show replaceNewline [c] = [c] by simp [replaceNewline, hnl]]
        rw [List.singleton_append, oboUnescapeSlim.eq_def]
        simp [hc, ih]

/-- Claim C1: for every Term, TypeDef, Reference and string value,
`annotate_object` fails with InvalidTypeDef exactly when the typedef is
a metadata tag, and `annotate_literal` fails with InvalidTypeDef exactly
when it is not — the directionality invariant, enforced by a runtime
check at the call site. -/
theorem annotate_directionality (t : Term) (td : TypeDef) (r : Reference)
    (v : String) :
    (Term.annotate_object t td r = Except.error ModelError.invalidTypeDef
      ↔ td.is_metadata_tag = true)
    ∧ (Term.annotate_literal t td v = Except.error ModelError.invalidTypeDef
      ↔ td.is_metadata_tag = false) := by
  cases h : td.is_metadata_tag
  · simp only [Term.annotate_object, Term.annotate_literal, h]
    constructor
    · simp only [Bool.false_eq_true, if_false]
      split <;> simp
    · simp
  · simp [Term.annotate_object, Term.annotate_literal, h]

/-- Claim C2: `obo_escape` maps each character of its input
independently, left to right, through the spec's table — the nine listed
characters become backslash-prefixed, the space becomes backslash-W,
everything else is unchanged — and in particular escaping the
three-character string a-space-b yields the four characters a,
backslash, W, b. -/
theorem obo_escape_spec (s : List Char) :
    obo_escape s = (s.map specFullEscapeChar).flatten
    ∧ obo_escape ['a', ' ', 'b'] = ['a', '\\', 'W', 'b'] := by
  constructor
  · induction s with
    | nil => rfl
    | cons c s ih =>
      simp only [obo_escape, List.flatMap_cons, List.map_cons,
        List.flatten_cons] at *
      rw [← ih, oboEscapeChar_eq_spec]
  · decide

/-- Claim C3: `obo_escape_slim` applies the same nine-character table as
the full escape but leaves every space untouched, and after that
per-character pass replaces every newline with backslash-n; in
particular it fixes the string a-space-b and turns line1-newline-line2
into line1-backslash-n-line2. -/
theorem obo_escape_slim_spec (s : List Char) :
    obo_escape_slim s = replaceNewline (s.map specSlimEscapeChar).flatten
    ∧ oboEscapeSlimChar ' ' = [' ']
    ∧ obo_escape_slim ['a', ' ', 'b'] = ['a', ' ', 'b']
    ∧ obo_escape_slim
        ['l', 'i', 'n', 'e', '1', '\n', 'l', 'i', 'n', 'e', '2']
      = ['l', 'i', 'n', 'e', '1', '\\', 'n', 'l', 'i', 'n', 'e', '2'] := by
  refine ⟨?_, by decide, by decide, by decide⟩
  unfold obo_escape_slim
  congr 1
  induction s with
  | nil => rfl
  | cons c s ih =>
    simp only [List.flatMap_cons, List.map_cons, List.flatten_cons] at *
    rw [ih, oboEscapeSlimChar_eq_spec]

/-- Claim C4: both escape functions equal the left-to-right
concatenation of per-character substitutions, with no re-scanning of
already-substituted output: they distribute over concatenation of
inputs, and a single input backslash yields exactly the two-character
output backslash-backslash, not the four characters a naive iterated
replace-all would produce. -/
theorem escape_no_rescan (s t : List Char) :
    obo_escape s = (s.map oboEscapeChar).flatten
    ∧ obo_escape_slim s
        = (s.map fun c => replaceNewline (oboEscapeSlimChar c)).flatten
    ∧ obo_escape (s ++ t) = obo_escape s ++ obo_escape t
    ∧ obo_escape_slim (s ++ t) = obo_escape_slim s ++ obo_escape_slim t
    ∧ obo_escape ['\\'] = ['\\', '\\']
    ∧ obo_escape_slim ['\\'] = ['\\', '\\']
    ∧ obo_escape ['\\'] ≠ ['\\', '\\', '\\', '\\']
    ∧ obo_escape_slim ['\\'] ≠ ['\\', '\\', '\\', '\\'] := by
  refine ⟨by simp [obo_escape, List.flatMap_def], ?_, by simp [obo_escape],
    by simp [obo_escape_slim, replaceNewline], by decide, by decide,
    by decide, by decide⟩
  induction s with
  | nil => rfl
  | cons c s ih =>
    rw [obo_escape_slim_cons, List.map_cons, List.flatten_cons, ih]

/-- Claim C5: on a string containing none of the reserved characters —
none of the nine table characters, no space and no newline — both
`obo_escape` and `obo_escape_slim` are the identity. -/
theorem escape_identity_on_plain (s : List Char)
    (h : ∀ c ∈ s, c ∉ escapeChars ∧ c ≠ ' ' ∧ c ≠ '\n') :
    obo_escape s = s ∧ obo_escape_slim s = s := by
  induction s with
  | nil => exact ⟨rfl, rfl⟩
  | cons c s ih =>
    obtain ⟨hmem, hsp, hnl⟩ := h c (List.mem_cons_self c s)
    have htail : ∀ d ∈ s, d ∉ escapeChars ∧ d ≠ ' ' ∧ d ≠ '\n' :=
      fun d hd => h d (List.mem_cons_of_mem c hd)
    obtain ⟨ih1, ih2⟩ := ih htail
    constructor
    · simp only [obo_escape, List.flatMap_cons] at *
      rw [ih1]
      simp [oboEscapeChar, oboEscapeSlimChar, hsp, hmem]
    · rw [obo_escape_slim_cons, ih2]
      simp [oboEscapeSlimChar, hmem, replaceNewline, hnl]

/-- Witness for C5: the two-character string ab contains no reserved
character and both escapes fix it. -/
theorem escape_identity_on_plain_witness :
    obo_escape ['a', 'b'] = ['a', 'b']
    ∧ obo_escape_slim ['a', 'b'] = ['a', 'b'] :=
  escape_identity_on_plain ['a', 'b'] (by decide)

/-- Claim C6: the set-vs-sequence asymmetry of Term's mutation API.
Starting from a term with empty collections: appending the same parent
twice (equal up to Reference equality) leaves exactly one parents entry,
annotating the same object edge twice leaves exactly one edge, and
annotating the same literal twice leaves two entries in insertion
order. -/
theorem term_set_vs_sequence (t : Term) (tdr tdm : TypeDef)
    (r r' : Reference) (v : String)
    (hp : t.parents = []) (ho : t.objectEdges = [])
    (hl : t.literalValues = [])
    (hrr : Reference.eq r r' = true)
    (h1 : tdr.is_metadata_tag = false) (h2 : tdm.is_metadata_tag = true) :
    ((t.append_parent r).append_parent r').parents = [r]
    ∧ (t.annotate_object tdr r).bind (fun u => u.annotate_object tdr r)
        = .ok { t with objectEdges := [(tdr.reference, r)] }
    ∧ (t.annotate_literal tdm v).bind (fun u => u.annotate_literal tdm v)
        = .ok { t with
            literalValues := [(tdm.reference, v), (tdm.reference, v)] } := by
  refine ⟨?_, ?_, ?_⟩
  · simp [Term.append_parent, hp, hrr]
  · simp [Term.annotate_object, h1, ho, Except.bind, Reference.eq]
  · simp [Term.annotate_literal, h2, hl, Except.bind]

/-- Witness for C6: concrete run on a fresh term, a relation typedef, a
metadata typedef, and two references equal up to the name field. -/
theorem term_set_vs_sequence_witness :
    (((⟨⟨"silva", "T1", none⟩, [], [], []⟩ : Term).append_parent
          ⟨"silva", "P", none⟩).append_parent
          ⟨"silva", "P", some "parent"⟩).parents = [⟨"silva", "P", none⟩]
    ∧ ((⟨⟨"silva", "T1", none⟩, [], [], []⟩ : Term).annotate_object
          ⟨⟨"ro", "rank", none⟩, false⟩ ⟨"silva", "P", none⟩).bind
        (fun u => u.annotate_object
          ⟨⟨"ro", "rank", none⟩, false⟩ ⟨"silva", "P", none⟩)
        = .ok ⟨⟨"silva", "T1", none⟩, [],
            [(⟨"ro", "rank", none⟩, ⟨"silva", "P", none⟩)], []⟩
    ∧ ((⟨⟨"silva", "T1", none⟩, [], [], []⟩ : Term).annotate_literal
          ⟨⟨"obo", "contributor", none⟩, true⟩ "x").bind
        (fun u => u.annotate_literal ⟨⟨"obo", "contributor", none⟩, true⟩ "x")
        = .ok ⟨⟨"silva", "T1", none⟩, [], [],
            [(⟨"obo", "contributor", none⟩, "x"),
             (⟨"obo", "contributor", none⟩, "x")]⟩ :=
  term_set_vs_sequence ⟨⟨"silva", "T1", none⟩, [], [], []⟩
    ⟨⟨"ro", "rank", none⟩, false⟩ ⟨⟨"obo", "contributor", none⟩, true⟩
    ⟨"silva", "P", none⟩ ⟨"silva", "P", some "parent"⟩ "x"
    rfl rfl rfl (by decide) rfl rfl

/-- Claim C7: for non-empty prefixes and identifiers, two References
with the same namespace and identifier are equal and hash alike
regardless of their names, and in general Reference equality holds
exactly when namespace and identifier both match. -/
theorem reference_eq_ignores_name (p i : String) (n1 n2 : Option String)
    (_hp : p ≠ "") (_hi : i ≠ "") :
    (Reference.eq ⟨p, i, n1⟩ ⟨p, i, n2⟩ = true
      ∧ Reference.hashKey ⟨p, i, n1⟩ = Reference.hashKey ⟨p, i, n2⟩)
    ∧ ∀ a b : Reference,
        (Reference.eq a b = true ↔ a.ns = b.ns ∧ a.identifier = b.identifier) := by
  refine ⟨⟨?_, rfl⟩, fun a b => ?_⟩
  · simp [Reference.eq]
  · simp [Reference.eq]

/-- Witness for C7: the go:0005829 reference with and without the
display name cytosol. -/
theorem reference_eq_ignores_name_witness :
    (Reference.eq ⟨"go", "0005829", none⟩ ⟨"go", "0005829", some "cytosol"⟩
        = true
      ∧ Reference.hashKey ⟨"go", "0005829", none⟩
        = Reference.hashKey ⟨"go", "0005829", some "cytosol"⟩)
    ∧ ∀ a b : Reference,
        (Reference.eq a b = true ↔ a.ns = b.ns ∧ a.identifier = b.identifier) :=
  reference_eq_ignores_name "go" "0005829" none (some "cytosol")
    (by decide) (by decide)

/-- Claim C8: both escape functions are total Lean functions over every
input (they signal no error), and the output is never shorter than the
input. -/
theorem escape_total_length (s : List Char) :
    s.length ≤ (obo_escape s).length
    ∧ s.length ≤ (obo_escape_slim s).length := by
  induction s with
  | nil => exact ⟨Nat.le_refl 0, Nat.le_refl 0⟩
  | cons c s ih =>
    obtain ⟨ih1, ih2⟩ := ih
    constructor
    · have hc : 1 ≤ (oboEscapeChar c).length := by
        unfold oboEscapeChar oboEscapeSlimChar
        split_ifs <;> simp
      simp only [obo_escape, List.flatMap_cons, List.length_append,
        List.length_cons] at *
      omega
    · have hc : 1 ≤ (replaceNewline (oboEscapeSlimChar c)).length := by
        unfold oboEscapeSlimChar
        split_ifs with h
        · by_cases hnl : c = '\n' <;> simp [replaceNewline, hnl]
        · by_cases hnl : c = '\n' <;> simp [replaceNewline, hnl]
      rw [obo_escape_slim_cons]
      simp only [List.length_append, List.length_cons]
      omega

/-- Claim C9: both escape functions are injective — each admits a
decoder recovering the input from the escaped output, so equal outputs
force equal inputs. -/
theorem escape_injective (s1 s2 : List Char) :
    (obo_escape s1 = obo_escape s2 → s1 = s2)
    ∧ (obo_escape_slim s1 = obo_escape_slim s2 → s1 = s2) := by
  constructor
  · intro hfull
    calc s1 = oboUnescape (obo_escape s1) := (oboUnescape_obo_escape s1).symm
      _ = oboUnescape (obo_escape s2) := by rw [hfull]
      _ = s2 := oboUnescape_obo_escape s2
  · intro hslim
    calc s1 = oboUnescapeSlim (obo_escape_slim s1) :=
        (oboUnescapeSlim_obo_escape_slim s1).symm
      _ = oboUnescapeSlim (obo_escape_slim s2) := by rw [hslim]
      _ = s2 := oboUnescapeSlim_obo_escape_slim s2

/-- Witness for C9: applying the injectivity theorem at the concrete
input ab on both sides, discharging each equality hypothesis by
computation. -/
theorem escape_injective_witness :
    (['a', 'b'] : List Char) = ['a', 'b'] ∧ (['x'] : List Char) = ['x'] :=
  ⟨(escape_injective ['a', 'b'] ['a', 'b']).1 rfl,
   (escape_injective ['x'] ['x']).2 rfl⟩

/-- Claim C10: `obo_escape` leaves newlines alone: its per-character
table has no entry for the newline, every newline of the input survives
verbatim (the count of newlines is preserved), while only
`obo_escape_slim` converts a newline into backslash-n. -/
theorem obo_escape_preserves_newline (s : List Char) :
    (obo_escape s).count '\n' = s.count '\n'
    ∧ oboEscapeChar '\n' = ['\n']
    ∧ obo_escape ['\n'] = ['\n']
    ∧ obo_escape_slim ['\n'] = ['\\', 'n'] := by
  refine ⟨?_, by decide, by decide, by decide⟩
  induction s with
  | nil => rfl
  | cons c s ih =>
    have hc : (oboEscapeChar c).count '\n' = List.count '\n' [c] := by
      unfold oboEscapeChar oboEscapeSlimChar
      split_ifs with h1 h2
      · subst h1; decide
      · have : c ≠ '\n' := by
          intro h; subst h; revert h2; unfold escapeChars; decide
        simp [List.count_cons, this]
      · rfl
    simp only [obo_escape, List.flatMap_cons, List.count_append] at *
    rw [hc, ih]
    simp [List.count_cons, Nat.add_comm]

end PyObo
